import Mathlib

/-!
# Verification of the PTS-Const labor-tracking UI logic

Shallow embedding of the cost calculation, report aggregation, category
creation and daily-batch submission logic of the repository.  JavaScript
numbers are modelled as exact rationals (`ℚ`); `undefined` values are
modelled with `Option`.
-/

namespace PTSConst

/-- Models the JavaScript expression `m || 1.5` applied to an optional
multiplier: both `undefined` and `0` are falsy and yield `1.5`. -/
def effectiveMultiplier : Option ℚ → ℚ
  | none => 3/2
  | some m => if m = 0 then 3/2 else m

/-- `ReportsSection.calculateTotalCost`.  The TypeScript parameter
`multiplier: number = 1.5` defaults to `1.5` when the argument is
`undefined`, modelled by an `Option` argument. -/
def calculateTotalCost (rate normalHours overtimeHours : ℚ)
    (multiplier : Option ℚ) (workers : ℚ) : ℚ :=
  let m := multiplier.getD (3/2)
  let normalCost := rate * normalHours * workers
  let otCost := rate * overtimeHours * m * workers
  normalCost + otCost

/-- `DailyEntryForm.calculateCost`. -/
def calculateCost (normalHours overtimeHours workerCount hourlyRate
    overtimeMultiplier : ℚ) : ℚ :=
  let normalCost := normalHours * hourlyRate
  let overtimeCost := overtimeHours * hourlyRate * overtimeMultiplier
  (normalCost + overtimeCost) * workerCount

/-- A row of the `daily_entries` store, as read by `ReportsSection`
(the `Entry` interface). -/
structure Entry where
  entry_date : String
  category : String
  rate : ℚ
  normal_hours : ℚ
  overtime_hours : ℚ
  num_workers : ℚ
  site_id : String
  supervisor_email : Option String
  overtime_multiplier : Option ℚ
deriving DecidableEq

/-- A per-category subtotal inside a `DailyReport`. -/
structure CatSubtotal where
  name : String
  workers : ℚ
  cost : ℚ
deriving DecidableEq

/-- The `DailyReport` interface of `ReportsSection`. -/
structure DailyReport where
  date : String
  totalWorkers : ℚ
  totalCost : ℚ
  entries : List Entry
  categories : List CatSubtotal
deriving DecidableEq

/-- Models the JavaScript expression `s.split(sep)[0]` for a one-character
separator: the prefix of `s` before the first occurrence of `sep` (the whole
string when `sep` does not occur). -/
def splitHead (sep : Char) (s : String) : String :=
  String.mk (s.data.takeWhile (fun c => c ≠ sep))

/-- Line 108 of `ReportsSection`:
`entry.entry_date.split("T")[0] || entry.entry_date.split(" ")[0]`.
The first alternative is falsy only when it is the empty string. -/
def dateOnly (s : String) : String :=
  let t := splitHead 'T' s
  if t = "" then splitHead ' ' s else t

/-- The cost the report aggregator attributes to one persisted entry
(lines 109–117 of `ReportsSection`): the falsy-or default applied to the
stored multiplier, then `calculateTotalCost`. -/
def entryCost (e : Entry) : ℚ :=
  calculateTotalCost e.rate e.normal_hours e.overtime_hours
    (some (effectiveMultiplier e.overtime_multiplier)) e.num_workers

/-- Lines 133–143 of `ReportsSection`: look up the entry's category name in
the subtotal list; accumulate in place when found, append otherwise. -/
def addEntryToCategories (e : Entry) (cost : ℚ) :
    List CatSubtotal → List CatSubtotal
  | [] => [⟨e.category, e.num_workers, cost⟩]
  | c :: rest =>
    if c.name = e.category then
      ⟨c.name, c.workers + e.num_workers, c.cost + cost⟩ :: rest
    else
      c :: addEntryToCategories e cost rest

/-- The fresh group created at line 119 of `ReportsSection`. -/
def emptyReport (d : String) : DailyReport :=
  { date := d, totalWorkers := 0, totalCost := 0, entries := [], categories := [] }

/-- Lines 129–143 of `ReportsSection`: fold one entry into its day group. -/
def applyEntry (e : Entry) (r : DailyReport) : DailyReport :=
  let cost := entryCost e
  { r with
    totalWorkers := r.totalWorkers + e.num_workers
    totalCost := r.totalCost + cost
    entries := r.entries ++ [e]
    categories := addEntryToCategories e cost r.categories }

/-- One loop iteration of `groupEntriesByDate` acting on the `grouped`
record, modelled as an insertion-ordered association list keyed by the
truncated date. -/
def insertEntry (e : Entry) :
    List (String × DailyReport) → List (String × DailyReport)
  | [] => [(dateOnly e.entry_date, applyEntry e (emptyReport (dateOnly e.entry_date)))]
  | (k, r) :: rest =>
    if k = dateOnly e.entry_date then (k, applyEntry e r) :: rest
    else (k, r) :: insertEntry e rest

/-- Computable strict lexicographic comparison on character lists, used to
decide string comparisons by structural recursion. -/
def lexLtB : List Char → List Char → Bool
  | [], [] => false
  | [], _ :: _ => true
  | _ :: _, [] => false
  | a :: as, b :: bs => if a < b then true else if b < a then false else lexLtB as bs

theorem lexLtB_iff_lt : ∀ s t : List Char, lexLtB s t = true ↔ s < t := by
  intro s t
  induction s generalizing t with
  | nil =>
    cases t with
    | nil => simp [lexLtB]
    | cons b bs => simp [lexLtB]; exact List.Lex.nil
  | cons a as ih =>
    cases t with
    | nil => simp [lexLtB]
    | cons b bs =>
      simp only [lexLtB]
      split_ifs with h1 h2
      · exact iff_of_true rfl (List.Lex.rel h1)
      · simp only [Bool.false_eq_true, false_iff]
        intro h
        cases h with
        | rel h' => exact h1 h'
        | cons h' => exact absurd h2 (lt_irrefl _)
      · have hab : a = b := le_antisymm (le_of_not_lt h2) (le_of_not_lt h1)
        subst hab
        constructor
        · intro h
          exact List.Lex.cons ((ih bs).mp h)
        · intro h
          cases h with
          | rel h' => exact absurd h' (lt_irrefl _)
          | cons h' => exact (ih bs).mpr h'

theorem lexLtB_eq_false_iff_le (s t : String) :
    lexLtB t.data s.data = false ↔ s ≤ t := by
  have h1 : s ≤ t ↔ ¬ t.data < s.data := by
    rw [String.le_iff_toList_le, ← not_lt]
    simp [String.toList]
  rw [h1, ← lexLtB_iff_lt]
  simp

/-- The comparator of line 146, `(a, b) => b.date.localeCompare(a.date)`:
sorts reports by descending lexicographic date. -/
def dateDesc (a b : DailyReport) : Prop := b.date ≤ a.date

instance : DecidableRel dateDesc :=
  fun a b => decidable_of_iff (lexLtB a.date.data b.date.data = false)
    (lexLtB_eq_false_iff_le b.date a.date)

instance : IsTotal DailyReport dateDesc :=
  ⟨fun a b => le_total b.date a.date⟩

instance : IsTrans DailyReport dateDesc :=
  ⟨fun _ _ _ hab hbc => le_trans hbc hab⟩

/-- `ReportsSection.groupEntriesByDate` (lines 104–147): fold all entries
into the keyed record, then sort the groups by descending date. -/
def groupEntriesByDate (entries : List Entry) : List DailyReport :=
  let grouped := entries.foldl (fun acc e => insertEntry e acc) []
  List.insertionSort dateDesc (grouped.map Prod.snd)

/-- The cost recomputed for one spreadsheet row in
`ReportsSection.downloadExcel` (lines 154–161). -/
def excelRowCost (e : Entry) : ℚ :=
  calculateTotalCost e.rate e.normal_hours e.overtime_hours
    (some (effectiveMultiplier e.overtime_multiplier)) e.num_workers

/-- The per-entry cost recomputed for display in the `ReportsSection`
render (lines 268–275). -/
def renderedEntryCost (e : Entry) : ℚ :=
  calculateTotalCost e.rate e.normal_hours e.overtime_hours
    (some (effectiveMultiplier e.overtime_multiplier)) e.num_workers

/-! ## WorkerCategoryManager -/

/-- The `newCategory` draft state of `WorkerCategoryManager`. -/
structure NewCategoryDraft where
  name : String
  short_code : String
  hourly_rate : ℚ
  overtime_multiplier : ℚ
deriving DecidableEq

/-- The row sent to the `worker_categories` store on create. -/
structure CategoryRow where
  name : String
  short_code : String
  hourly_rate : ℚ
  overtime_multiplier : ℚ
  is_active : Bool
deriving DecidableEq

/-- Outcome of `addCategory`: either a destructive toast with no call to
the store, or the single row handed to the insert. -/
inductive AddCategoryOutcome
  | rejected (title description : String)
  | insertRow (row : CategoryRow)
deriving DecidableEq

/-- `WorkerCategoryManager.addCategory` (lines 49–74) up to the insert
call: the guard `!name || !short_code || hourly_rate <= 0` rejects with a
toast and returns before any store call; otherwise one row is inserted
with `is_active: true`.  Empty strings are the falsy strings. -/
def addCategory (d : NewCategoryDraft) : AddCategoryOutcome :=
  if d.name = "" ∨ d.short_code = "" ∨ d.hourly_rate ≤ 0 then
    .rejected "Validation Error" "Fill all fields"
  else
    .insertRow ⟨d.name, d.short_code, d.hourly_rate, d.overtime_multiplier, true⟩

/-! ## DailyEntryForm -/

/-- The `WorkerEntry` interface of `DailyEntryForm` (a draft line item). -/
structure WorkerEntry where
  id : String
  category : String
  normalHours : ℚ
  overtimeHours : ℚ
  workerCount : ℚ
  rate : ℚ
  totalCost : ℚ
deriving DecidableEq

/-- The identity returned by `supabase.auth.getUser`. -/
structure User where
  id : String
  email : String
deriving DecidableEq

/-- A row of the batch insert into `daily_entries` (lines 476–487). -/
structure DailyEntryRow where
  entry_date : String
  site_id : String
  supervisor_id : String
  supervisor_email : String
  category : String
  rate : ℚ
  normal_hours : ℚ
  overtime_hours : ℚ
  num_workers : ℚ
  total_cost : ℚ
deriving DecidableEq

/-- The `formattedRows` mapping of lines 476–487. -/
def formatRow (selectedDate siteId : String) (u : User) (e : WorkerEntry) :
    DailyEntryRow :=
  { entry_date := selectedDate
    site_id := siteId
    supervisor_id := u.id
    supervisor_email := u.email
    category := e.category
    rate := e.rate
    normal_hours := e.normalHours
    overtime_hours := e.overtimeHours
    num_workers := e.workerCount
    total_cost := e.totalCost }

/-- Observable result of one `saveDaily` invocation: the toast title
shown, the row collection given to the insert call (`none` when no write
was attempted), and the draft list afterwards. -/
structure SaveResult where
  toastTitle : String
  attemptedInsert : Option (List DailyEntryRow)
  entriesAfter : List WorkerEntry
deriving DecidableEq

/-- `DailyEntryForm.saveDaily` (lines 446–504).  The two external
collaborators are inputs: `user` is the identity from
`supabase.auth.getUser` (`none` when the call errors or returns no user)
and `insertError` the error of the batch insert (`none` on success).
Guards run in source order: missing site, empty draft list, missing
session; each returns before the insert.  On success the draft list is
cleared, on failure it is kept. -/
def saveDaily (siteId selectedDate : String) (entries : List WorkerEntry)
    (user : Option User) (insertError : Option String) : SaveResult :=
  if siteId = "" then
    { toastTitle := "Site not selected", attemptedInsert := none, entriesAfter := entries }
  else if entries.isEmpty then
    { toastTitle := "No entries", attemptedInsert := none, entriesAfter := entries }
  else
    match user with
    | none =>
      { toastTitle := "User not authenticated", attemptedInsert := none, entriesAfter := entries }
    | some u =>
      let rows := entries.map (formatRow selectedDate siteId u)
      match insertError with
      | some _ =>
        { toastTitle := "Save failed", attemptedInsert := some rows, entriesAfter := entries }
      | none =>
        { toastTitle := "Entries saved", attemptedInsert := some rows, entriesAfter := [] }

/-! ## Observation functions for the grouped record

`catFind`, `catW`, `catC`, `catMemB` observe one per-category subtotal list;
`repFind`, `repW`, `repC`, `repCats`, `repMemB` observe the association list
that models the `grouped` record.  `groupFold` is the loop of
`groupEntriesByDate` started from an arbitrary record. -/

/-- The `categories.find((c) => c.name === n)` lookup. -/
def catFind (n : String) (cs : List CatSubtotal) : Option CatSubtotal :=
  cs.find? (fun c => c.name = n)

/-- Accumulated workers recorded for category `n` (0 when absent). -/
def catW (n : String) (cs : List CatSubtotal) : ℚ :=
  ((catFind n cs).map CatSubtotal.workers).getD 0

/-- Accumulated cost recorded for category `n` (0 when absent). -/
def catC (n : String) (cs : List CatSubtotal) : ℚ :=
  ((catFind n cs).map CatSubtotal.cost).getD 0

/-- Whether a subtotal for category `n` is present. -/
def catMemB (n : String) (cs : List CatSubtotal) : Bool :=
  (catFind n cs).isSome

/-- Lookup of the day group keyed `d` in the `grouped` record. -/
def repFind (d : String) (g : List (String × DailyReport)) : Option DailyReport :=
  (g.find? (fun p => p.1 = d)).map Prod.snd

/-- `totalWorkers` of the day group keyed `d` (0 when absent). -/
def repW (d : String) (g : List (String × DailyReport)) : ℚ :=
  ((repFind d g).map DailyReport.totalWorkers).getD 0

/-- `totalCost` of the day group keyed `d` (0 when absent). -/
def repC (d : String) (g : List (String × DailyReport)) : ℚ :=
  ((repFind d g).map DailyReport.totalCost).getD 0

/-- `categories` of the day group keyed `d` (empty when absent). -/
def repCats (d : String) (g : List (String × DailyReport)) : List CatSubtotal :=
  ((repFind d g).map DailyReport.categories).getD []

/-- Whether a day group keyed `d` is present. -/
def repMemB (d : String) (g : List (String × DailyReport)) : Bool :=
  (repFind d g).isSome

/-- The `for` loop of `groupEntriesByDate`, started from record `g`. -/
def groupFold (g : List (String × DailyReport)) (l : List Entry) :
    List (String × DailyReport) :=
  l.foldl (fun acc e => insertEntry e acc) g

/-- Workers contributed to day `d` by the entries of `l`. -/
def sumW (d : String) (l : List Entry) : ℚ :=
  (l.map (fun e => if dateOnly e.entry_date = d then e.num_workers else 0)).sum

/-- Cost contributed to day `d` by the entries of `l`. -/
def sumC (d : String) (l : List Entry) : ℚ :=
  (l.map (fun e => if dateOnly e.entry_date = d then entryCost e else 0)).sum

/-- Workers contributed to day `d`, category `n` by the entries of `l`. -/
def sumCatW (d n : String) (l : List Entry) : ℚ :=
  (l.map (fun e =>
    if dateOnly e.entry_date = d ∧ e.category = n then e.num_workers else 0)).sum

/-- Cost contributed to day `d`, category `n` by the entries of `l`. -/
def sumCatC (d n : String) (l : List Entry) : ℚ :=
  (l.map (fun e =>
    if dateOnly e.entry_date = d ∧ e.category = n then entryCost e else 0)).sum

/-! ## Concrete example data -/

/-- An entry whose stored date carries a `T`-separated timestamp. -/
def tStampEntry : Entry :=
  ⟨"2025-06-01T10:00:00", "Mason", 100, 8, 2, 3, "site1", none, some (3/2)⟩

/-- An entry whose stored date carries a space-separated timestamp. -/
def sStampEntry : Entry :=
  ⟨"2025-06-01 10:00:00", "Mason", 100, 8, 2, 3, "site1", none, some (3/2)⟩

/-- Example entry dated 2025-06-01. -/
def d1Entry : Entry := ⟨"2025-06-01", "Mason", 100, 8, 2, 3, "site1", none, some (3/2)⟩

/-- Example entry dated 2025-06-02. -/
def d2Entry : Entry := ⟨"2025-06-02", "Mason", 100, 8, 2, 3, "site1", none, none⟩

/-- Example entry dated 2025-06-03. -/
def d3Entry : Entry := ⟨"2025-06-03", "Carpenter", 100, 8, 2, 3, "site1", none, some 0⟩

/-- First entry of the permutation example. -/
def we1 : Entry := ⟨"2025-06-01", "Mason", 100, 8, 2, 3, "site1", none, some (3/2)⟩

/-- Second entry of the permutation example, same calendar day. -/
def we2 : Entry := ⟨"2025-06-01T09:00:00", "Mason", 100, 8, 2, 3, "site1", none, none⟩

/-- The permutation example list. -/
def wl1 : List Entry := [we1, we2]

/-- The permutation example list, reordered. -/
def wl2 : List Entry := [we2, we1]

/-- The single day group produced by aggregating `wl1`. -/
def wr1 : DailyReport :=
  ⟨"2025-06-01", 0 + (3 : ℚ) + 3, 0 + entryCost we1 + entryCost we2, [we1, we2],
    [⟨"Mason", (3 : ℚ) + 3, entryCost we1 + entryCost we2⟩]⟩

/-- An entry recorded with an explicit zero overtime multiplier. -/
def zEntry : Entry := ⟨"2025-06-01", "Mason", 100, 8, 2, 3, "site1", none, some 0⟩

/-- A category draft whose hourly rate is zero. -/
def zeroRateDraft : NewCategoryDraft := ⟨"Mason", "M", 0, 3/2⟩

/-- A draft line item for the submission examples. -/
def wEntry : WorkerEntry := ⟨"1", "Mason (M)", 8, 2, 3, 100, 3300⟩

/-! ## Claim theorems -/

/-- C1: for all non-negative rate, normalHours, overtimeHours, workerCount and
multiplier m, the cost function returns exactly
rate·normalHours·workerCount + rate·overtimeHours·m·workerCount, with no
internal rounding (arithmetic is exact over ℚ). -/
theorem cost_formula_exact (rate nh oh wc m : ℚ)
    (hr : 0 ≤ rate) (hnh : 0 ≤ nh) (hoh : 0 ≤ oh) (hwc : 0 ≤ wc) :
    calculateTotalCost rate nh oh (some m) wc
      = rate * nh * wc + rate * oh * m * wc ∧
    calculateCost nh oh wc rate m
      = rate * nh * wc + rate * oh * m * wc := by
  constructor
  · simp [calculateTotalCost]
  · simp [calculateCost]
    ring

/-- Witness for C1 at rate 100, 8 normal and 2 overtime hours, 3 workers,
multiplier 1.5. -/
theorem cost_formula_exact_witness :
    0 ≤ (100 : ℚ) ∧ 0 ≤ (8 : ℚ) ∧ 0 ≤ (2 : ℚ) ∧ 0 ≤ (3 : ℚ) ∧
    (calculateTotalCost 100 8 2 (some (3/2)) 3
      = 100 * 8 * 3 + 100 * 2 * (3/2) * 3 ∧
     calculateCost 8 2 3 100 (3/2)
      = 100 * 8 * 3 + 100 * 2 * (3/2) * 3) :=
  ⟨by norm_num, by norm_num, by norm_num, by norm_num,
    cost_formula_exact 100 8 2 3 (3/2) (by norm_num) (by norm_num) (by norm_num)
      (by norm_num)⟩

/-- C5: an absent (undefined) multiplier argument computes the same result as
an explicit multiplier of 1.5. -/
theorem default_multiplier_eq (rate nh oh wc : ℚ) :
    calculateTotalCost rate nh oh none wc
      = calculateTotalCost rate nh oh (some (3/2)) wc := rfl

/-- C6: the report screen's calculateTotalCost and the entry form's
calculateCost compute the same value on all inputs. -/
theorem cost_functions_agree (rate nh oh wc m : ℚ) :
    calculateTotalCost rate nh oh (some m) wc = calculateCost nh oh wc rate m := by
  simp [calculateTotalCost, calculateCost]
  ring

/-- C10: in the report aggregator, the spreadsheet export and the report
render, an entry whose stored overtime multiplier is present but equal to 0
is costed as if the multiplier were 1.5: the falsy-or default conflates an
explicit zero with an absent multiplier. -/
theorem zero_multiplier_conflated (e : Entry) (h : e.overtime_multiplier = some 0) :
    entryCost e = entryCost { e with overtime_multiplier := some (3/2) } ∧
    excelRowCost e = excelRowCost { e with overtime_multiplier := some (3/2) } ∧
    renderedEntryCost e = renderedEntryCost { e with overtime_multiplier := some (3/2) } := by
  simp [entryCost, excelRowCost, renderedEntryCost, effectiveMultiplier, h]

/-- Witness for C10 at a concrete entry with stored multiplier 0. -/
theorem zero_multiplier_conflated_witness :
    zEntry.overtime_multiplier = some 0 ∧
    (entryCost zEntry = entryCost { zEntry with overtime_multiplier := some (3/2) } ∧
     excelRowCost zEntry = excelRowCost { zEntry with overtime_multiplier := some (3/2) } ∧
     renderedEntryCost zEntry
       = renderedEntryCost { zEntry with overtime_multiplier := some (3/2) }) :=
  ⟨rfl, zero_multiplier_conflated zEntry rfl⟩

/-- C7: category creation requires a non-empty name, a non-empty short code
and a strictly positive hourly rate; any violating draft is rejected with a
user-visible message and no insert is attempted, while a valid draft leads
to exactly one inserted row. -/
theorem addCategory_create_validation (d : NewCategoryDraft) :
    (¬ (d.name ≠ "" ∧ d.short_code ≠ "" ∧ 0 < d.hourly_rate) →
      addCategory d = .rejected "Validation Error" "Fill all fields") ∧
    ((d.name ≠ "" ∧ d.short_code ≠ "" ∧ 0 < d.hourly_rate) →
      addCategory d
        = .insertRow ⟨d.name, d.short_code, d.hourly_rate, d.overtime_multiplier, true⟩) := by
  constructor
  · intro h
    rw [addCategory, if_pos]
    push_neg at h
    rcases eq_or_ne d.name "" with h1 | h1
    · exact Or.inl h1
    rcases eq_or_ne d.short_code "" with h2 | h2
    · exact Or.inr (Or.inl h2)
    · exact Or.inr (Or.inr (h h1 h2))
  · intro h
    rw [addCategory, if_neg]
    push_neg
    exact ⟨h.1, h.2.1, h.2.2⟩

/-- Witness for C7: a draft with hourly_rate = 0 is rejected. -/
theorem addCategory_create_validation_witness :
    addCategory zeroRateDraft = .rejected "Validation Error" "Fill all fields" :=
  (addCategory_create_validation zeroRateDraft).1 (by norm_num [zeroRateDraft])

/-- C8: saving the daily batch with an empty draft list, no chosen site, or
no valid session is blocked before any write: no insert is attempted, the
draft list is unchanged and a validation toast is reported. -/
theorem saveDaily_validation_guards (siteId selectedDate : String)
    (entries : List WorkerEntry) (user : Option User) (insertError : Option String)
    (h : siteId = "" ∨ entries = [] ∨ user = none) :
    (saveDaily siteId selectedDate entries user insertError).attemptedInsert = none ∧
    (saveDaily siteId selectedDate entries user insertError).entriesAfter = entries ∧
    (saveDaily siteId selectedDate entries user insertError).toastTitle
      ∈ (["Site not selected", "No entries", "User not authenticated"] : List String) := by
  rcases eq_or_ne siteId "" with hs | hs
  · simp [saveDaily, hs]
  · rcases eq_or_ne entries ([] : List WorkerEntry) with he | he
    · simp [saveDaily, hs, he]
    · have hu : user = none := by tauto
      simp [saveDaily, hs, List.isEmpty_iff, he, hu]

/-- Witness for C8: an authenticated save with a chosen site but an empty
draft list is rejected with no write attempted. -/
theorem saveDaily_validation_guards_witness :
    (("site1" : String) = "" ∨ ([] : List WorkerEntry) = []
      ∨ (some ⟨"u1", "a@b.c"⟩ : Option User) = none) ∧
    ((saveDaily "site1" "2025-06-01" [] (some ⟨"u1", "a@b.c"⟩) none).attemptedInsert = none ∧
     (saveDaily "site1" "2025-06-01" [] (some ⟨"u1", "a@b.c"⟩) none).entriesAfter = [] ∧
     (saveDaily "site1" "2025-06-01" [] (some ⟨"u1", "a@b.c"⟩) none).toastTitle
       ∈ (["Site not selected", "No entries", "User not authenticated"] : List String)) :=
  ⟨Or.inr (Or.inl rfl),
    saveDaily_validation_guards "site1" "2025-06-01" [] (some ⟨"u1", "a@b.c"⟩) none
      (Or.inr (Or.inl rfl))⟩

/-- C9: a batch submission is all-or-nothing for local state: on a reported
successful insert the draft list is cleared, on a reported failed insert it
is retained unchanged. -/
theorem saveDaily_all_or_nothing (siteId selectedDate : String)
    (entries : List WorkerEntry) (u : User) (err : String)
    (h1 : siteId ≠ "") (h2 : entries ≠ []) :
    ((saveDaily siteId selectedDate entries (some u) none).entriesAfter = [] ∧
     (saveDaily siteId selectedDate entries (some u) none).toastTitle = "Entries saved") ∧
    ((saveDaily siteId selectedDate entries (some u) (some err)).entriesAfter = entries ∧
     (saveDaily siteId selectedDate entries (some u) (some err)).toastTitle = "Save failed") := by
  simp [saveDaily, h1, List.isEmpty_iff, h2]

/-- Witness for C9 at a one-element draft list. -/
theorem saveDaily_all_or_nothing_witness :
    (("site1" : String) ≠ "" ∧ ([wEntry] : List WorkerEntry) ≠ []) ∧
    (((saveDaily "site1" "2025-06-01" [wEntry] (some ⟨"u1", "a@b.c"⟩) none).entriesAfter = [] ∧
      (saveDaily "site1" "2025-06-01" [wEntry] (some ⟨"u1", "a@b.c"⟩) none).toastTitle
        = "Entries saved") ∧
     ((saveDaily "site1" "2025-06-01" [wEntry] (some ⟨"u1", "a@b.c"⟩) (some "boom")).entriesAfter
        = [wEntry] ∧
      (saveDaily "site1" "2025-06-01" [wEntry] (some ⟨"u1", "a@b.c"⟩) (some "boom")).toastTitle
        = "Save failed")) :=
  ⟨⟨by decide, by decide⟩,
    saveDaily_all_or_nothing "site1" "2025-06-01" [wEntry] ⟨"u1", "a@b.c"⟩ "boom"
      (by decide) (by decide)⟩

/-- C2: the claim that both timestamp forms are truncated to the calendar
day fails on the code: `split("T")[0]` of a space-separated timestamp is the
whole (truthy) string, so the `|| split(" ")[0]` alternative is dead code and
the two forms end up in different groups. -/
theorem date_truncation_divergence :
    dateOnly "2025-06-01T10:00:00" = "2025-06-01" ∧
    dateOnly "2025-06-01 10:00:00" = "2025-06-01 10:00:00" ∧
    dateOnly "2025-06-01 10:00:00" ≠ "2025-06-01" ∧
    (groupEntriesByDate [tStampEntry, sStampEntry]).map (fun r => r.date)
      = ["2025-06-01 10:00:00", "2025-06-01"] := by decide

/-- C4: the report aggregator's output is ordered by descending
lexicographic comparison of the date strings; in particular days
2025-06-01, 2025-06-03, 2025-06-02 come out as 2025-06-03, 2025-06-02,
2025-06-01. -/
theorem report_order_desc :
    (∀ l : List Entry,
      (groupEntriesByDate l).Pairwise (fun a b => b.date ≤ a.date)) ∧
    (groupEntriesByDate [d1Entry, d3Entry, d2Entry]).map (fun r => r.date)
      = ["2025-06-03", "2025-06-02", "2025-06-01"] := by
  constructor
  · intro l
    exact List.sorted_insertionSort dateDesc _
  · decide

/-! ## Aggregation lemmas for permutation invariance -/

theorem catW_nil (n : String) : catW n [] = 0 := rfl

theorem catC_nil (n : String) : catC n [] = 0 := rfl

theorem catFind_cons (n : String) (x : CatSubtotal) (l : List CatSubtotal) :
    catFind n (x :: l) = if x.name = n then some x else catFind n l := by
  by_cases h : x.name = n <;> simp [catFind, List.find?, h]

theorem catW_cons (n : String) (x : CatSubtotal) (l : List CatSubtotal) :
    catW n (x :: l) = if x.name = n then x.workers else catW n l := by
  by_cases h : x.name = n <;> simp [catW, catFind_cons, h]

theorem catC_cons (n : String) (x : CatSubtotal) (l : List CatSubtotal) :
    catC n (x :: l) = if x.name = n then x.cost else catC n l := by
  by_cases h : x.name = n <;> simp [catC, catFind_cons, h]

theorem catFind_add (e : Entry) (cost : ℚ) (n : String) (cs : List CatSubtotal) :
    catFind n (addEntryToCategories e cost cs)
      = if e.category = n
        then some ⟨n, catW n cs + e.num_workers, catC n cs + cost⟩
        else catFind n cs := by
  induction cs with
  | nil =>
    by_cases h : e.category = n <;>
      simp [addEntryToCategories, catFind_cons, catFind, catW_nil, catC_nil, h]
  | cons c rest ih =>
    simp only [addEntryToCategories]
    by_cases hc : c.name = e.category
    · rw [if_pos hc]
      by_cases hn : c.name = n
      · have hen : e.category = n := hc.symm.trans hn
        rw [catFind_cons, if_pos hn, if_pos hen, catW_cons, if_pos hn,
          catC_cons, if_pos hn, hn]
      · have hen : ¬ e.category = n := fun h => hn (hc.trans h)
        rw [catFind_cons, if_neg hn, if_neg hen, catFind_cons, if_neg hn]
    · rw [if_neg hc]
      by_cases hn : c.name = n
      · have hen : ¬ e.category = n := fun h => hc (hn.trans h.symm)
        rw [catFind_cons, if_pos hn, if_neg hen, catFind_cons, if_pos hn]
      · rw [catFind_cons, if_neg hn, ih]
        by_cases hen : e.category = n
        · rw [if_pos hen, if_pos hen, catW_cons, if_neg hn, catC_cons, if_neg hn]
        · rw [if_neg hen, if_neg hen, catFind_cons, if_neg hn]

theorem catW_add (e : Entry) (cost : ℚ) (n : String) (cs : List CatSubtotal) :
    catW n (addEntryToCategories e cost cs)
      = catW n cs + if e.category = n then e.num_workers else 0 := by
  by_cases h : e.category = n <;> simp [catW, catFind_add, h]

theorem catC_add (e : Entry) (cost : ℚ) (n : String) (cs : List CatSubtotal) :
    catC n (addEntryToCategories e cost cs)
      = catC n cs + if e.category = n then cost else 0 := by
  by_cases h : e.category = n <;> simp [catC, catFind_add, h]

theorem catMemB_add (e : Entry) (cost : ℚ) (n : String) (cs : List CatSubtotal) :
    catMemB n (addEntryToCategories e cost cs)
      = (catMemB n cs || decide (e.category = n)) := by
  by_cases h : e.category = n <;> simp [catMemB, catFind_add, h]

theorem mem_names_add (e : Entry) (cost : ℚ) (cs : List CatSubtotal) (m : String) :
    m ∈ (addEntryToCategories e cost cs).map CatSubtotal.name
      ↔ m ∈ cs.map CatSubtotal.name ∨ m = e.category := by
  induction cs with
  | nil => simp [addEntryToCategories]
  | cons c rest ih =>
    by_cases hc : c.name = e.category
    · simp only [addEntryToCategories, if_pos hc]
      simp only [List.map_cons, List.mem_cons]
      constructor
      · rintro (h | h)
        · exact Or.inl (Or.inl h)
        · exact Or.inl (Or.inr h)
      · rintro ((h | h) | h)
        · exact Or.inl h
        · exact Or.inr h
        · exact Or.inl (h.trans hc.symm)
    · simp only [addEntryToCategories, if_neg hc]
      simp only [List.map_cons, List.mem_cons]
      rw [ih]
      tauto

theorem names_nodup_add (e : Entry) (cost : ℚ) (cs : List CatSubtotal)
    (h : (cs.map CatSubtotal.name).Nodup) :
    ((addEntryToCategories e cost cs).map CatSubtotal.name).Nodup := by
  induction cs with
  | nil => simp [addEntryToCategories]
  | cons c rest ih =>
    simp only [List.map_cons, List.nodup_cons] at h
    by_cases hc : c.name = e.category
    · simp only [addEntryToCategories, if_pos hc]
      simp only [List.map_cons, List.nodup_cons]
      exact ⟨h.1, h.2⟩
    · simp only [addEntryToCategories, if_neg hc]
      simp only [List.map_cons, List.nodup_cons]
      refine ⟨?_, ih h.2⟩
      rw [mem_names_add]
      rintro (hm | hm)
      · exact h.1 hm
      · exact hc hm

-- Layer 2: grouped-record lemmas

theorem repFind_nil (d : String) : repFind d [] = none := rfl

theorem repFind_cons (d : String) (p : String × DailyReport)
    (g : List (String × DailyReport)) :
    repFind d (p :: g) = if p.1 = d then some p.2 else repFind d g := by
  by_cases h : p.1 = d <;> simp [repFind, List.find?, h]

theorem repFind_insertEntry (e : Entry) (g : List (String × DailyReport)) (d : String) :
    repFind d (insertEntry e g)
      = if dateOnly e.entry_date = d
        then some (applyEntry e ((repFind d g).getD (emptyReport d)))
        else repFind d g := by
  induction g with
  | nil =>
    by_cases h : dateOnly e.entry_date = d
    · rw [insertEntry, repFind_cons, if_pos h, if_pos h, repFind_nil]
      rw [h]
      rfl
    · rw [insertEntry, repFind_cons, if_neg h, if_neg h]
  | cons p g ih =>
    obtain ⟨k, r⟩ := p
    simp only [insertEntry]
    by_cases hk : k = dateOnly e.entry_date
    · rw [if_pos hk]
      by_cases hd : dateOnly e.entry_date = d
      · have hkd : k = d := hk.trans hd
        rw [repFind_cons, if_pos hkd, if_pos hd, repFind_cons, if_pos hkd]
        rfl
      · have hkd : ¬ k = d := fun h => hd (hk.symm.trans h)
        rw [repFind_cons, if_neg hkd, if_neg hd, repFind_cons, if_neg hkd]
    · rw [if_neg hk]
      by_cases hkd : k = d
      · have hd : ¬ dateOnly e.entry_date = d := fun h => hk (hkd.trans h.symm)
        rw [repFind_cons, if_pos hkd, if_neg hd, repFind_cons, if_pos hkd]
      · rw [repFind_cons, if_neg hkd, ih, repFind_cons, if_neg hkd]

theorem repW_insertEntry (e : Entry) (g : List (String × DailyReport)) (d : String) :
    repW d (insertEntry e g)
      = repW d g + if dateOnly e.entry_date = d then e.num_workers else 0 := by
  by_cases h : dateOnly e.entry_date = d
  · rw [repW, repFind_insertEntry, if_pos h, if_pos h]
    cases hf : repFind d g with
    | none => simp [repW, hf, applyEntry, emptyReport]
    | some r => simp [repW, hf, applyEntry]
  · rw [repW, repFind_insertEntry, if_neg h, if_neg h, add_zero, repW]

theorem repC_insertEntry (e : Entry) (g : List (String × DailyReport)) (d : String) :
    repC d (insertEntry e g)
      = repC d g + if dateOnly e.entry_date = d then entryCost e else 0 := by
  by_cases h : dateOnly e.entry_date = d
  · rw [repC, repFind_insertEntry, if_pos h, if_pos h]
    cases hf : repFind d g with
    | none => simp [repC, hf, applyEntry, emptyReport]
    | some r => simp [repC, hf, applyEntry]
  · rw [repC, repFind_insertEntry, if_neg h, if_neg h, add_zero, repC]

theorem repCats_insertEntry (e : Entry) (g : List (String × DailyReport)) (d : String) :
    repCats d (insertEntry e g)
      = if dateOnly e.entry_date = d
        then addEntryToCategories e (entryCost e) (repCats d g)
        else repCats d g := by
  by_cases h : dateOnly e.entry_date = d
  · rw [repCats, repFind_insertEntry, if_pos h, if_pos h]
    cases hf : repFind d g with
    | none => simp [repCats, hf, applyEntry, emptyReport]
    | some r => simp [repCats, hf, applyEntry]
  · rw [repCats, repFind_insertEntry, if_neg h, if_neg h, repCats]

theorem repMemB_insertEntry (e : Entry) (g : List (String × DailyReport)) (d : String) :
    repMemB d (insertEntry e g)
      = (repMemB d g || decide (dateOnly e.entry_date = d)) := by
  by_cases h : dateOnly e.entry_date = d
  · rw [repMemB, repFind_insertEntry, if_pos h]
    simp [h]
  · rw [repMemB, repFind_insertEntry, if_neg h]
    simp [h, repMemB]

-- Fold lemmas

theorem groupFold_nil (g : List (String × DailyReport)) : groupFold g [] = g := rfl

theorem groupFold_cons (g : List (String × DailyReport)) (e : Entry) (l : List Entry) :
    groupFold g (e :: l) = groupFold (insertEntry e g) l := rfl

theorem repW_groupFold (l : List Entry) :
    ∀ (g : List (String × DailyReport)) (d : String),
      repW d (groupFold g l) = repW d g + sumW d l := by
  induction l with
  | nil => intro g d; simp [groupFold_nil, sumW]
  | cons e l ih =>
    intro g d
    rw [groupFold_cons, ih, repW_insertEntry]
    simp only [sumW, List.map_cons, List.sum_cons]
    ring

theorem repC_groupFold (l : List Entry) :
    ∀ (g : List (String × DailyReport)) (d : String),
      repC d (groupFold g l) = repC d g + sumC d l := by
  induction l with
  | nil => intro g d; simp [groupFold_nil, sumC]
  | cons e l ih =>
    intro g d
    rw [groupFold_cons, ih, repC_insertEntry]
    simp only [sumC, List.map_cons, List.sum_cons]
    ring

theorem catW_repCats_groupFold (l : List Entry) :
    ∀ (g : List (String × DailyReport)) (d n : String),
      catW n (repCats d (groupFold g l)) = catW n (repCats d g) + sumCatW d n l := by
  induction l with
  | nil => intro g d n; simp [groupFold_nil, sumCatW]
  | cons e l ih =>
    intro g d n
    rw [groupFold_cons, ih, repCats_insertEntry]
    simp only [sumCatW, List.map_cons, List.sum_cons]
    by_cases hd : dateOnly e.entry_date = d
    · rw [if_pos hd, catW_add]
      by_cases hn : e.category = n
      · rw [if_pos hn, if_pos ⟨hd, hn⟩]
        ring
      · rw [if_neg hn, if_neg (fun h => hn h.2)]
        ring
    · rw [if_neg hd, if_neg (fun h => hd h.1)]
      ring

theorem catC_repCats_groupFold (l : List Entry) :
    ∀ (g : List (String × DailyReport)) (d n : String),
      catC n (repCats d (groupFold g l)) = catC n (repCats d g) + sumCatC d n l := by
  induction l with
  | nil => intro g d n; simp [groupFold_nil, sumCatC]
  | cons e l ih =>
    intro g d n
    rw [groupFold_cons, ih, repCats_insertEntry]
    simp only [sumCatC, List.map_cons, List.sum_cons]
    by_cases hd : dateOnly e.entry_date = d
    · rw [if_pos hd, catC_add]
      by_cases hn : e.category = n
      · rw [if_pos hn, if_pos ⟨hd, hn⟩]
        ring
      · rw [if_neg hn, if_neg (fun h => hn h.2)]
        ring
    · rw [if_neg hd, if_neg (fun h => hd h.1)]
      ring

theorem catMemB_repCats_groupFold (l : List Entry) :
    ∀ (g : List (String × DailyReport)) (d n : String),
      catMemB n (repCats d (groupFold g l))
        = (catMemB n (repCats d g)
            || l.any (fun e => decide (dateOnly e.entry_date = d) && decide (e.category = n))) := by
  induction l with
  | nil => intro g d n; simp [groupFold_nil]
  | cons e l ih =>
    intro g d n
    rw [groupFold_cons, ih, repCats_insertEntry]
    simp only [List.any_cons]
    by_cases hd : dateOnly e.entry_date = d
    · rw [if_pos hd, catMemB_add]
      simp [hd, Bool.or_assoc, Bool.or_comm, Bool.or_left_comm]
    · rw [if_neg hd]
      simp [hd]

theorem repMemB_groupFold (l : List Entry) :
    ∀ (g : List (String × DailyReport)) (d : String),
      repMemB d (groupFold g l)
        = (repMemB d g || l.any (fun e => decide (dateOnly e.entry_date = d))) := by
  induction l with
  | nil => intro g d; simp [groupFold_nil]
  | cons e l ih =>
    intro g d
    rw [groupFold_cons, ih, repMemB_insertEntry]
    simp [Bool.or_assoc, Bool.or_comm, Bool.or_left_comm]

-- Invariants

theorem mem_keys_insertEntry (e : Entry) (g : List (String × DailyReport)) (k : String) :
    k ∈ (insertEntry e g).map Prod.fst
      ↔ k ∈ g.map Prod.fst ∨ k = dateOnly e.entry_date := by
  induction g with
  | nil => simp [insertEntry]
  | cons p g ih =>
    obtain ⟨k', r⟩ := p
    simp only [insertEntry]
    by_cases hk : k' = dateOnly e.entry_date
    · rw [if_pos hk]
      simp only [List.map_cons, List.mem_cons]
      constructor
      · rintro (h | h)
        · exact Or.inl (Or.inl h)
        · exact Or.inl (Or.inr h)
      · rintro ((h | h) | h)
        · exact Or.inl h
        · exact Or.inr h
        · exact Or.inl (h.trans hk.symm)
    · rw [if_neg hk]
      simp only [List.map_cons, List.mem_cons]
      rw [ih]
      tauto

theorem keys_nodup_insertEntry (e : Entry) (g : List (String × DailyReport))
    (h : (g.map Prod.fst).Nodup) : ((insertEntry e g).map Prod.fst).Nodup := by
  induction g with
  | nil => simp [insertEntry]
  | cons p g ih =>
    obtain ⟨k', r⟩ := p
    simp only [List.map_cons, List.nodup_cons] at h
    simp only [insertEntry]
    by_cases hk : k' = dateOnly e.entry_date
    · rw [if_pos hk]
      simp only [List.map_cons, List.nodup_cons]
      exact ⟨h.1, h.2⟩
    · rw [if_neg hk]
      simp only [List.map_cons, List.nodup_cons]
      refine ⟨?_, ih h.2⟩
      rw [mem_keys_insertEntry]
      rintro (hm | hm)
      · exact h.1 hm
      · exact hk hm

theorem keys_nodup_groupFold (l : List Entry) :
    ∀ g : List (String × DailyReport),
      (g.map Prod.fst).Nodup → ((groupFold g l).map Prod.fst).Nodup := by
  induction l with
  | nil => intro g h; simpa [groupFold_nil] using h
  | cons e l ih =>
    intro g h
    rw [groupFold_cons]
    exact ih _ (keys_nodup_insertEntry e g h)

theorem date_coh_insertEntry (e : Entry) (g : List (String × DailyReport))
    (h : ∀ p ∈ g, (p.2 : DailyReport).date = p.1) :
    ∀ p ∈ insertEntry e g, (p.2 : DailyReport).date = p.1 := by
  induction g with
  | nil =>
    intro p hp
    simp only [insertEntry, List.mem_singleton] at hp
    subst hp
    rfl
  | cons q g ih =>
    obtain ⟨k', r⟩ := q
    intro p hp
    simp only [insertEntry] at hp
    by_cases hk : k' = dateOnly e.entry_date
    · rw [if_pos hk] at hp
      rcases List.mem_cons.mp hp with h1 | h1
      · subst h1
        exact h ⟨k', r⟩ (List.mem_cons_self _ _)
      · exact h p (List.mem_cons_of_mem _ h1)
    · rw [if_neg hk] at hp
      rcases List.mem_cons.mp hp with h1 | h1
      · subst h1
        exact h ⟨k', r⟩ (List.mem_cons_self _ _)
      · exact ih (fun q hq => h q (List.mem_cons_of_mem _ hq)) p h1

theorem date_coh_groupFold (l : List Entry) :
    ∀ g : List (String × DailyReport),
      (∀ p ∈ g, (p.2 : DailyReport).date = p.1) →
      ∀ p ∈ groupFold g l, (p.2 : DailyReport).date = p.1 := by
  induction l with
  | nil => intro g h; simpa [groupFold_nil] using h
  | cons e l ih =>
    intro g h
    rw [groupFold_cons]
    exact ih _ (date_coh_insertEntry e g h)

theorem cats_nodup_insertEntry (e : Entry) (g : List (String × DailyReport))
    (h : ∀ p ∈ g, ((p.2 : DailyReport).categories.map CatSubtotal.name).Nodup) :
    ∀ p ∈ insertEntry e g,
      ((p.2 : DailyReport).categories.map CatSubtotal.name).Nodup := by
  induction g with
  | nil =>
    intro p hp
    simp only [insertEntry, List.mem_singleton] at hp
    subst hp
    exact names_nodup_add e (entryCost e) [] (by simp)
  | cons q g ih =>
    obtain ⟨k', r⟩ := q
    intro p hp
    simp only [insertEntry] at hp
    by_cases hk : k' = dateOnly e.entry_date
    · rw [if_pos hk] at hp
      rcases List.mem_cons.mp hp with h1 | h1
      · subst h1
        exact names_nodup_add e (entryCost e) r.categories
          (h ⟨k', r⟩ (List.mem_cons_self _ _))
      · exact h p (List.mem_cons_of_mem _ h1)
    · rw [if_neg hk] at hp
      rcases List.mem_cons.mp hp with h1 | h1
      · subst h1
        exact h ⟨k', r⟩ (List.mem_cons_self _ _)
      · exact ih (fun q hq => h q (List.mem_cons_of_mem _ hq)) p h1

theorem cats_nodup_groupFold (l : List Entry) :
    ∀ g : List (String × DailyReport),
      (∀ p ∈ g, ((p.2 : DailyReport).categories.map CatSubtotal.name).Nodup) →
      ∀ p ∈ groupFold g l,
        ((p.2 : DailyReport).categories.map CatSubtotal.name).Nodup := by
  induction l with
  | nil => intro g h; simpa [groupFold_nil] using h
  | cons e l ih =>
    intro g h
    rw [groupFold_cons]
    exact ih _ (cats_nodup_insertEntry e g h)

-- Bridges between membership and lookup

theorem repFind_eq_of_mem (g : List (String × DailyReport))
    (hnd : (g.map Prod.fst).Nodup) (k : String) (r : DailyReport)
    (h : (k, r) ∈ g) : repFind k g = some r := by
  induction g with
  | nil => cases h
  | cons p g ih =>
    simp only [List.map_cons, List.nodup_cons] at hnd
    rcases List.mem_cons.mp h with h1 | h1
    · rw [← h1, repFind_cons, if_pos rfl]
    · have hk : ¬ p.1 = k := by
        intro hpk
        exact hnd.1 (hpk ▸ (List.mem_map.mpr ⟨(k, r), h1, rfl⟩))
      rw [repFind_cons, if_neg hk]
      exact ih hnd.2 h1

theorem mem_of_repFind (g : List (String × DailyReport)) (d : String)
    (r : DailyReport) (h : repFind d g = some r) : (d, r) ∈ g := by
  rw [repFind] at h
  obtain ⟨p, hfind, hsnd⟩ := Option.map_eq_some'.mp h
  have hmem := List.mem_of_find?_eq_some hfind
  have hfst := List.find?_some hfind
  simp only [decide_eq_true_eq] at hfst
  have : p = (d, r) := by
    obtain ⟨p1, p2⟩ := p
    simp only at hfst hsnd
    rw [hfst, hsnd]
  exact this ▸ hmem

theorem catFind_eq_mk (n : String) (cs : List CatSubtotal)
    (h : catMemB n cs = true) :
    catFind n cs = some ⟨n, catW n cs, catC n cs⟩ := by
  rw [catMemB, Option.isSome_iff_exists] at h
  obtain ⟨c, hc⟩ := h
  have hname : c.name = n := by
    have := List.find?_some hc
    simpa using this
  rw [catW, catC, hc]
  simp only [Option.map_some', Option.getD_some]
  obtain ⟨c1, c2, c3⟩ := c
  simp only at hname
  rw [hname]

theorem mem_iff_catFind (cs : List CatSubtotal)
    (hnd : (cs.map CatSubtotal.name).Nodup) (c : CatSubtotal) :
    c ∈ cs ↔ catFind c.name cs = some c := by
  constructor
  · intro h
    induction cs with
    | nil => cases h
    | cons x rest ih =>
      simp only [List.map_cons, List.nodup_cons] at hnd
      rcases List.mem_cons.mp h with h1 | h1
      · rw [← h1, catFind_cons, if_pos rfl]
      · have hx : ¬ x.name = c.name := by
          intro hxc
          exact hnd.1 (hxc ▸ (List.mem_map.mpr ⟨c, h1, rfl⟩))
        rw [catFind_cons, if_neg hx]
        exact ih hnd.2 h1
  · intro h
    exact List.mem_of_find?_eq_some h

theorem group_perm_invariant (l₁ l₂ : List Entry) (hp : l₁.Perm l₂)
    (r₁ : DailyReport) (h₁ : r₁ ∈ groupEntriesByDate l₁) :
    ∃ r₂ ∈ groupEntriesByDate l₂,
      r₂.date = r₁.date ∧ r₂.totalWorkers = r₁.totalWorkers ∧
      r₂.totalCost = r₁.totalCost ∧
      ∀ c : CatSubtotal, (c ∈ r₂.categories ↔ c ∈ r₁.categories) := by
  have hsort₁ : (groupEntriesByDate l₁).Perm ((groupFold [] l₁).map Prod.snd) :=
    List.perm_insertionSort dateDesc _
  have hsort₂ : (groupEntriesByDate l₂).Perm ((groupFold [] l₂).map Prod.snd) :=
    List.perm_insertionSort dateDesc _
  have h₁' : r₁ ∈ (groupFold [] l₁).map Prod.snd := hsort₁.mem_iff.mp h₁
  obtain ⟨p, hpmem, hpsnd⟩ := List.mem_map.mp h₁'
  obtain ⟨d, r⟩ := p
  simp only at hpsnd
  rw [hpsnd] at hpmem
  -- observations of the fold over l₁
  have hknd₁ : ((groupFold [] l₁).map Prod.fst).Nodup :=
    keys_nodup_groupFold l₁ [] (by simp)
  have hf₁ : repFind d (groupFold [] l₁) = some r₁ :=
    repFind_eq_of_mem _ hknd₁ d r₁ hpmem
  have hdate₁ : r₁.date = d := date_coh_groupFold l₁ [] (by simp) (d, r₁) hpmem
  have hW₁ : r₁.totalWorkers = sumW d l₁ := by
    have h1 := repW_groupFold l₁ [] d
    simpa [repW, hf₁, repFind_nil] using h1
  have hC₁ : r₁.totalCost = sumC d l₁ := by
    have h1 := repC_groupFold l₁ [] d
    simpa [repC, hf₁, repFind_nil] using h1
  have hcats₁ : repCats d (groupFold [] l₁) = r₁.categories := by
    simp [repCats, hf₁]
  -- permutation-invariant summaries
  have hsum : ∀ f : Entry → ℚ, (l₁.map f).sum = (l₂.map f).sum :=
    fun f => (hp.map f).sum_eq
  have hany : ∀ f : Entry → Bool, l₁.any f = l₂.any f := by
    intro f
    apply Bool.eq_iff_iff.mpr
    simp only [List.any_eq_true]
    exact ⟨fun ⟨x, hx, hfx⟩ => ⟨x, hp.mem_iff.mp hx, hfx⟩,
      fun ⟨x, hx, hfx⟩ => ⟨x, hp.mem_iff.mpr hx, hfx⟩⟩
  -- the day group exists on the l₂ side
  have hmb₁ : repMemB d (groupFold [] l₁) = true := by
    simp [repMemB, hf₁]
  have hmb₂ : repMemB d (groupFold [] l₂) = true := by
    rw [repMemB_groupFold l₂ [] d]
    rw [repMemB_groupFold l₁ [] d] at hmb₁
    simpa [hany _] using hmb₁
  obtain ⟨r₂, hf₂⟩ := Option.isSome_iff_exists.mp hmb₂
  have hpmem₂ : (d, r₂) ∈ groupFold [] l₂ := mem_of_repFind _ _ _ hf₂
  have hmem₂ : r₂ ∈ groupEntriesByDate l₂ :=
    hsort₂.mem_iff.mpr (List.mem_map.mpr ⟨(d, r₂), hpmem₂, rfl⟩)
  have hdate₂ : r₂.date = d := date_coh_groupFold l₂ [] (by simp) (d, r₂) hpmem₂
  have hW₂ : r₂.totalWorkers = sumW d l₂ := by
    have h1 := repW_groupFold l₂ [] d
    simpa [repW, hf₂, repFind_nil] using h1
  have hC₂ : r₂.totalCost = sumC d l₂ := by
    have h1 := repC_groupFold l₂ [] d
    simpa [repC, hf₂, repFind_nil] using h1
  have hcats₂ : repCats d (groupFold [] l₂) = r₂.categories := by
    simp [repCats, hf₂]
  -- category subtotal lists agree as sets
  have hnd₁ : (r₁.categories.map CatSubtotal.name).Nodup :=
    cats_nodup_groupFold l₁ [] (by simp) (d, r₁) hpmem
  have hnd₂ : (r₂.categories.map CatSubtotal.name).Nodup :=
    cats_nodup_groupFold l₂ [] (by simp) (d, r₂) hpmem₂
  have hcatW : ∀ n, catW n r₁.categories = catW n r₂.categories := by
    intro n
    have h1 := catW_repCats_groupFold l₁ [] d n
    have h2 := catW_repCats_groupFold l₂ [] d n
    rw [hcats₁] at h1
    rw [hcats₂] at h2
    rw [h1, h2]
    simp only [sumCatW]
    rw [hsum]
  have hcatC : ∀ n, catC n r₁.categories = catC n r₂.categories := by
    intro n
    have h1 := catC_repCats_groupFold l₁ [] d n
    have h2 := catC_repCats_groupFold l₂ [] d n
    rw [hcats₁] at h1
    rw [hcats₂] at h2
    rw [h1, h2]
    simp only [sumCatC]
    rw [hsum]
  have hcatM : ∀ n, catMemB n r₁.categories = catMemB n r₂.categories := by
    intro n
    have h1 := catMemB_repCats_groupFold l₁ [] d n
    have h2 := catMemB_repCats_groupFold l₂ [] d n
    rw [hcats₁] at h1
    rw [hcats₂] at h2
    rw [h1, h2, hany]
  have hcatFind : ∀ n, catFind n r₁.categories = catFind n r₂.categories := by
    intro n
    cases hmb : catMemB n r₁.categories with
    | true =>
      rw [catFind_eq_mk n _ hmb, catFind_eq_mk n _ ((hcatM n) ▸ hmb),
        hcatW n, hcatC n]
    | false =>
      have hmb' : catMemB n r₂.categories = false := (hcatM n) ▸ hmb
      rw [catMemB] at hmb hmb'
      have e1 : catFind n r₁.categories = none := by
        rw [← Option.not_isSome_iff_eq_none]
        simp [hmb]
      have e2 : catFind n r₂.categories = none := by
        rw [← Option.not_isSome_iff_eq_none]
        simp [hmb']
      rw [e1, e2]
  refine ⟨r₂, hmem₂, hdate₂.trans hdate₁.symm, ?_, ?_, ?_⟩
  · rw [hW₁, hW₂]
    simp only [sumW]
    rw [hsum]
  · rw [hC₁, hC₂]
    simp only [sumC]
    rw [hsum]
  · intro c
    rw [mem_iff_catFind _ hnd₂ c, mem_iff_catFind _ hnd₁ c, hcatFind c.name]

theorem group_perm_invariant_witness :
    wl1.Perm wl2 ∧ wr1 ∈ groupEntriesByDate wl1 ∧
    ∃ r₂ ∈ groupEntriesByDate wl2,
      r₂.date = wr1.date ∧ r₂.totalWorkers = wr1.totalWorkers ∧
      r₂.totalCost = wr1.totalCost ∧
      ∀ c : CatSubtotal, (c ∈ r₂.categories ↔ c ∈ wr1.categories) :=
  ⟨List.Perm.swap we2 we1 [], List.Mem.head _,
    group_perm_invariant wl1 wl2 (List.Perm.swap we2 we1 []) wr1 (List.Mem.head _)⟩

end PTSConst
